import Mathlib

/-!
Shallow embedding of the popup-gpt client core (src/model.rs, src/misc.rs,
src/chatgpt.rs) and proofs about its specification.

Machine integers (`u64`, `u32`, `usize`) are modelled as `Nat`; the only
arithmetic the embedded code performs on them is addition, comparison and
subtraction, and where a `usize` subtraction could underflow (a debug-mode
panic in the source) the model returns an explicit `panicked` outcome.
Rust `Vec<T>` becomes `List T`, `Option<T>` becomes `Option T`, in-place
mutation becomes explicit state passing, and a Rust panic (`unwrap`,
out-of-bounds index, overflow check) becomes `none` / a `panicked`
constructor.
-/

/-! ## Data model (src/model.rs) -/

/-- `pub const DEFAULT_MODEL: &str = "gpt-3.5-turbo";` -/
def DEFAULT_MODEL : String := "gpt-3.5-turbo"

/-- `enum Role { System, Assistant, User }` -/
inductive Role where
  | System
  | Assistant
  | User
deriving DecidableEq, Repr

/-- `struct Message { role: Role, content: String }` -/
structure Message where
  role : Role
  content : String
deriving DecidableEq, Repr

/-- `struct MessageDelta { role: Option<Role>, content: Option<String> }` -/
structure MessageDelta where
  role : Option Role
  content : Option String
deriving DecidableEq, Repr

/-- `struct Usage { prompt_tokens: u32, completion_tokens: u32, total_tokens: u32 }` -/
structure Usage where
  prompt_tokens : Nat
  completion_tokens : Nat
  total_tokens : Nat
deriving DecidableEq, Repr

/-- `struct Choice { index: u64, message: Option<Message>, delta: Option<MessageDelta>, finish_reason: Option<String> }` -/
structure Choice where
  index : Nat
  message : Option Message
  delta : Option MessageDelta
  finish_reason : Option String
deriving DecidableEq, Repr

/-- `#[derive(Default)]` for `Choice`: numeric fields are zero, options are `None`. -/
instance : Inhabited Choice :=
  ⟨{ index := 0, message := none, delta := none, finish_reason := none }⟩

/-- `struct CompletionResponse { id, object, created, choices, usage }` -/
structure CompletionResponse where
  id : String
  object : String
  created : Nat
  choices : List Choice
  usage : Option Usage
deriving DecidableEq, Repr

/-- `CompletionResponse::default()`: empty strings, zero timestamp, no choices, no usage. -/
def emptyResponse : CompletionResponse :=
  { id := "", object := "", created := 0, choices := [], usage := none }

instance : Inhabited CompletionResponse := ⟨emptyResponse⟩

/-- `struct CompletionRequest` (sampling parameters are carried but never read
by the embedded code; `f32` fields are modelled as `Float`). -/
structure CompletionRequest where
  model : String
  messages : List Message
  temperature : Option Float
  top_p : Option Float
  n : Option Nat
  stream : Option Bool
  max_tokens : Option Nat
  presence_penalty : Option Float
  frequency_penalty : Option Float
  user : Option String

/-- `CompletionRequest::default()`. -/
def emptyRequest : CompletionRequest :=
  { model := "", messages := [], temperature := none, top_p := none, n := none,
    stream := none, max_tokens := none, presence_penalty := none,
    frequency_penalty := none, user := none }

/-- `Message::system` -/
def Message.system (msg : String) : Message := { role := Role.System, content := msg }

/-- `Message.user` -/
def Message.user (msg : String) : Message := { role := Role.User, content := msg }

/-- `Message.assistant` -/
def Message.assistant (msg : String) : Message := { role := Role.Assistant, content := msg }

/-- `CompletionResponse::primary_response`: the content of the first choice's
message, when both exist. -/
def primaryMessage (resp : CompletionResponse) : Option Message :=
  resp.choices.head?.bind Choice.message

/-! ### merge_delta (src/model.rs, lines 151-176)

The Rust loop body mutates `self.choices` in place; the embedding passes the
response through explicitly.  `entryAt` is indexing (`self.choices[i]`),
`setAt` is in-place update of one element, `padTo` is the
`while self.choices.len() <= choice.index { push Default }` gap-filling loop.
The `.unwrap()` on a missing message (line 170) is a panic, modelled as
`none`. -/

/-- Indexing `l[i]`, with the `Default` value out of range (the embedded code
only indexes in range, after `padTo`). -/
def entryAt : List Choice → Nat → Choice
  | [], _ => default
  | c :: _, 0 => c
  | _ :: l, i + 1 => entryAt l i

/-- Write `v` at position `i` (out-of-range writes are never performed by the
embedded code). -/
def setAt : List Choice → Nat → Choice → List Choice
  | [], _, _ => []
  | _ :: l, 0, v => v :: l
  | c :: l, i + 1, v => c :: setAt l i v

/-- `while self.choices.len() <= choice.index as usize { self.choices.push(Choice::default()); }` -/
def padTo : List Choice → Nat → List Choice
  | [], n => List.replicate n default
  | l, 0 => l
  | c :: l, n + 1 => c :: padTo l n

/-- One iteration of the `for choice in other.choices` loop of `merge_delta`:
pad, take a mutable reference to the choice at `choice.index`, apply the
role reset and the content append.  `none` models the `unwrap` panic when a
content delta arrives with no message present. -/
def applyChoice (resp : CompletionResponse) (choice : Choice) : Option CompletionResponse :=
  let choices := padTo resp.choices (choice.index + 1)
  let own := entryAt choices choice.index
  match choice.delta with
  | none => some { resp with choices := choices }
  | some delta =>
    let own1 := match delta.role with
      | some role => { own with message := some ({ role := role, content := "" }) }
      | none => own
    match delta.content with
    | none => some { resp with choices := setAt choices choice.index own1 }
    | some content =>
      match own1.message with
      | none => none
      | some msg =>
        let msg1 : Message := { msg with content := msg.content ++ content }
        let own2 : Choice := { own1 with message := some msg1 }
        some { resp with choices := setAt choices choice.index own2 }

/-- The whole `for choice in other.choices` loop; a panic aborts the merge. -/
def applyAll (resp : CompletionResponse) : List Choice → Option CompletionResponse
  | [] => some resp
  | c :: cs =>
    match applyChoice resp c with
    | none => none
    | some r => applyAll r cs

/-- `CompletionResponse::merge_delta(&mut self, other: Self)`. -/
def mergeDelta (resp other : CompletionResponse) : Option CompletionResponse :=
  applyAll resp other.choices

/-- Folding a whole fragment sequence into an accumulator, as
`request_stream` does (`response.merge_delta(partial_response)` per event). -/
def mergeAll (resp : CompletionResponse) : List CompletionResponse → Option CompletionResponse
  | [] => some resp
  | f :: fs =>
    match mergeDelta resp f with
    | none => none
    | some r => mergeAll r fs

/-- A single-choice delta fragment, as produced by the streaming endpoint. -/
def frag (c : Choice) : CompletionResponse := { emptyResponse with choices := [c] }

/-- A `Choice` carrying only an index and a delta. -/
def deltaC (i : Nat) (r : Option Role) (t : Option String) : Choice :=
  { index := i, message := none, delta := some { role := r, content := t }, finish_reason := none }

/-! ### Helper lemmas about `entryAt`, `setAt`, `padTo` -/

theorem length_setAt (l : List Choice) (i : Nat) (v : Choice) :
    (setAt l i v).length = l.length := by
  induction l generalizing i with
  | nil => rfl
  | cons c l ih =>
    cases i with
    | zero => rfl
    | succ i => simp [setAt, ih]

theorem length_padTo (l : List Choice) (n : Nat) :
    (padTo l n).length = max l.length n := by
  induction l generalizing n with
  | nil => simp [padTo]
  | cons c l ih =>
    cases n with
    | zero => simp [padTo]
    | succ n => simp [padTo, ih, Nat.succ_max_succ]

theorem entryAt_nil (i : Nat) : entryAt [] i = default := rfl

theorem entryAt_ge_length (l : List Choice) (i : Nat) (h : l.length ≤ i) :
    entryAt l i = default := by
  induction l generalizing i with
  | nil => rfl
  | cons c l ih =>
    cases i with
    | zero => simp at h
    | succ i => exact ih i (by simpa using h)

theorem entryAt_replicate (n i : Nat) :
    entryAt (List.replicate n default) i = default := by
  induction n generalizing i with
  | zero => rfl
  | succ n ih =>
    cases i with
    | zero => rfl
    | succ i => simpa [List.replicate, entryAt] using ih i

theorem entryAt_padTo (l : List Choice) (n i : Nat) :
    entryAt (padTo l n) i = entryAt l i := by
  induction l generalizing n i with
  | nil => simp [padTo, entryAt_replicate, entryAt_nil]
  | cons c l ih =>
    cases n with
    | zero => rfl
    | succ n =>
      cases i with
      | zero => rfl
      | succ i => simpa [padTo, entryAt] using ih n i

theorem padTo_padTo (l : List Choice) (n m : Nat) :
    padTo (padTo l n) m = padTo l (max n m) := by
  induction l generalizing n m with
  | nil =>
    simp only [padTo]
    induction n generalizing m with
    | zero => simp [padTo, List.replicate]
    | succ n ihn =>
      cases m with
      | zero => simp [padTo, List.replicate]
      | succ m =>
        simp only [List.replicate, padTo, Nat.succ_max_succ]
        exact congrArg _ (ihn m)
  | cons c l ih =>
    cases n with
    | zero =>
      cases m with
      | zero => rfl
      | succ m => simp [padTo]
    | succ n =>
      cases m with
      | zero => simp [padTo]
      | succ m => simp [padTo, ih, Nat.succ_max_succ]

theorem setAt_padTo (l : List Choice) (i : Nat) (v : Choice) (n : Nat) (h : i < l.length) :
    padTo (setAt l i v) n = setAt (padTo l n) i v := by
  induction l generalizing i n with
  | nil => simp at h
  | cons c l ih =>
    cases i with
    | zero =>
      cases n with
      | zero => rfl
      | succ n => rfl
    | succ i =>
      cases n with
      | zero => rfl
      | succ n =>
        have hi : i < l.length := by simpa using h
        simp [padTo, setAt, ih i n hi]

theorem entryAt_setAt_self (l : List Choice) (i : Nat) (v : Choice) (h : i < l.length) :
    entryAt (setAt l i v) i = v := by
  induction l generalizing i with
  | nil => simp at h
  | cons c l ih =>
    cases i with
    | zero => rfl
    | succ i => exact ih i (by simpa using h)

theorem entryAt_setAt_ne (l : List Choice) (i j : Nat) (v : Choice) (h : i ≠ j) :
    entryAt (setAt l j v) i = entryAt l i := by
  induction l generalizing i j with
  | nil => rfl
  | cons c l ih =>
    cases j with
    | zero =>
      cases i with
      | zero => exact absurd rfl h
      | succ i => rfl
    | succ j =>
      cases i with
      | zero => rfl
      | succ i => exact ih i j (fun hc => h (by simp [hc]))

theorem setAt_comm (l : List Choice) (i j : Nat) (a b : Choice) (h : i ≠ j) :
    setAt (setAt l i a) j b = setAt (setAt l j b) i a := by
  induction l generalizing i j with
  | nil => rfl
  | cons c l ih =>
    cases i with
    | zero =>
      cases j with
      | zero => exact absurd rfl h
      | succ j => rfl
    | succ i =>
      cases j with
      | zero => rfl
      | succ j => simp [setAt, ih i j (fun hc => h (by simp [hc]))]

theorem setAt_entryAt_id (l : List Choice) (i : Nat) (h : i < l.length) :
    setAt l i (entryAt l i) = l := by
  induction l generalizing i with
  | nil => rfl
  | cons c l ih =>
    cases i with
    | zero => rfl
    | succ i => simp [setAt, entryAt, ih i (by simpa using h)]

/-! ### A normalised form of `applyChoice` -/

/-- The pure delta-application step of `merge_delta` on the choice it
addresses: role reset, then content append; `none` is the `unwrap` panic. -/
def deltaApply (own : Choice) : Option MessageDelta → Option Choice
  | none => some own
  | some delta =>
    let own1 := match delta.role with
      | some role => { own with message := some ({ role := role, content := "" }) }
      | none => own
    match delta.content with
    | none => some own1
    | some content =>
      match own1.message with
      | none => none
      | some msg =>
        let msg1 : Message := { msg with content := msg.content ++ content }
        some { own1 with message := some msg1 }

theorem applyChoice_norm (t : CompletionResponse) (c : Choice) :
    applyChoice t c = (deltaApply (entryAt t.choices c.index) c.delta).map
      (fun own => { t with choices := setAt (padTo t.choices (c.index + 1)) c.index own }) := by
  have hlen : c.index < (padTo t.choices (c.index + 1)).length := by
    rw [length_padTo]; omega
  have hentry : entryAt (padTo t.choices (c.index + 1)) c.index = entryAt t.choices c.index :=
    entryAt_padTo _ _ _
  cases hd : c.delta with
  | none =>
    simp only [applyChoice, deltaApply, hd, Option.map_some']
    rw [← hentry, setAt_entryAt_id _ _ hlen]
  | some delta =>
    cases hr : delta.role with
    | none =>
      cases hc : delta.content with
      | none => simp [applyChoice, deltaApply, hd, hr, hc, hentry]
      | some content =>
        cases hm : (entryAt t.choices c.index).message with
        | none => simp [applyChoice, deltaApply, hd, hr, hc, hentry, hm]
        | some msg => simp [applyChoice, deltaApply, hd, hr, hc, hentry, hm]
    | some role =>
      cases hc : delta.content with
      | none => simp [applyChoice, deltaApply, hd, hr, hc, hentry]
      | some content => simp [applyChoice, deltaApply, hd, hr, hc, hentry]

/-! ### Merge-level supporting lemmas -/

theorem empty_append_str (s : String) : "" ++ s = s := by
  cases s
  rfl

theorem mergeDelta_single (t f : CompletionResponse) (c : Choice) (h : f.choices = [c]) :
    mergeDelta t f = applyChoice t c := by
  simp only [mergeDelta, h, applyAll]
  cases applyChoice t c with
  | none => rfl
  | some r => rfl

theorem applyAll_append (t : CompletionResponse) (l1 l2 : List Choice) :
    applyAll t (l1 ++ l2) =
      match applyAll t l1 with
      | none => none
      | some r => applyAll r l2 := by
  induction l1 generalizing t with
  | nil => simp [applyAll]
  | cons c l1 ih =>
    simp only [List.cons_append, applyAll]
    cases applyChoice t c with
    | none => rfl
    | some r => exact ih r

/-- The flattened choice sequence of a fragment sequence, in merge order. -/
def fragChoices (frags : List CompletionResponse) : List Choice :=
  (frags.map (fun f => f.choices)).flatten

theorem mergeAll_eq_applyAll (t : CompletionResponse) (frags : List CompletionResponse) :
    mergeAll t frags = applyAll t (fragChoices frags) := by
  induction frags generalizing t with
  | nil => rfl
  | cons f fs ih =>
    simp only [mergeAll, fragChoices, List.map_cons, List.flatten_cons, mergeDelta,
      applyAll_append]
    cases applyAll t f.choices with
    | none => rfl
    | some r => exact ih r

/-- The choice `own` with its message replaced by role `r` and content `s`. -/
def msgEntry (own : Choice) (r : Role) (s : String) : Choice :=
  { own with message := some ({ role := r, content := s }) }

/-- Applying a role-and-text delta at index `i`: the message at `i` is reset
to the delta's role and the delta's text (the appended text lands on the
freshly emptied message). -/
theorem applyChoice_role_text (t : CompletionResponse) (i : Nat) (r : Role) (s : String) :
    applyChoice t (deltaC i (some r) (some s)) =
      some { t with choices := setAt (padTo t.choices (i + 1)) i (msgEntry (entryAt t.choices i) r s) } := by
  rw [applyChoice_norm]
  simp only [deltaC, deltaApply, Option.map_some', msgEntry]
  rw [empty_append_str]

/-- Applying a text-only delta at index `i` when a message is present there:
the text is appended to that message's content. -/
theorem applyChoice_text_append (t : CompletionResponse) (i : Nat) (s : String)
    (m : Message) (h : (entryAt t.choices i).message = some m) :
    applyChoice t (deltaC i none (some s)) =
      some { t with choices := setAt (padTo t.choices (i + 1)) i (msgEntry (entryAt t.choices i) m.role (m.content ++ s)) } := by
  rw [applyChoice_norm]
  simp only [deltaC, deltaApply, h, Option.map_some', msgEntry]

/-! ## Claims about the Response Accumulator -/

/-- C3: for every target Response whose Choice at index 0 holds a message,
merging the fragments `[{0, role=assistant, text=""}, {0, text="Hel"},
{0, text="lo"}]` in that order yields Choice 0 message text `"Hello"`
with role assistant: the role-bearing delta resets the accumulated text and
each later text-bearing delta appends in receipt order. -/
theorem merge_same_index_appends (target : CompletionResponse)
    (h : 0 < target.choices.length ∧ (entryAt target.choices 0).message.isSome) :
    ∃ r,
      mergeAll target
          [frag (deltaC 0 (some Role.Assistant) (some "")),
           frag (deltaC 0 none (some ("Hel"))),
           frag (deltaC 0 none (some ("lo")))] = some r ∧
      (entryAt r.choices 0).message = some ({ role := Role.Assistant, content := "Hello" }) := by
  obtain ⟨hlen, -⟩ := h
  have hpos : ∀ (l : List Choice), 0 < (padTo l (0 + 1)).length := by
    intro l
    rw [length_padTo]
    omega
  have hat : ∀ (l : List Choice) (e : Choice),
      entryAt (setAt (padTo l (0 + 1)) 0 e) 0 = e := by
    intro l e
    exact entryAt_setAt_self _ 0 e (hpos _)
  have h1 : mergeDelta target (frag (deltaC 0 (some Role.Assistant) (some ""))) =
      some { target with choices := setAt (padTo target.choices (0 + 1)) 0 (msgEntry (entryAt target.choices 0) Role.Assistant "") } := by
    rw [mergeDelta_single _ _ _ rfl, applyChoice_role_text]
  set t1 : CompletionResponse :=
    { target with choices := setAt (padTo target.choices (0 + 1)) 0 (msgEntry (entryAt target.choices 0) Role.Assistant "") } with ht1
  have e1 : entryAt t1.choices 0 = msgEntry (entryAt target.choices 0) Role.Assistant "" := hat _ _
  have h2 : mergeDelta t1 (frag (deltaC 0 none (some ("Hel")))) =
      some { t1 with choices := setAt (padTo t1.choices (0 + 1)) 0 (msgEntry (entryAt t1.choices 0) Role.Assistant ("" ++ "Hel")) } := by
    rw [mergeDelta_single _ _ _ rfl,
      applyChoice_text_append t1 0 ("Hel") ({ role := Role.Assistant, content := "" }) (by rw [e1]; rfl)]
  set t2 : CompletionResponse :=
    { t1 with choices := setAt (padTo t1.choices (0 + 1)) 0 (msgEntry (entryAt t1.choices 0) Role.Assistant ("" ++ "Hel")) } with ht2
  have e2 : entryAt t2.choices 0 = msgEntry (entryAt t1.choices 0) Role.Assistant ("" ++ "Hel") := hat _ _
  have h3 : mergeDelta t2 (frag (deltaC 0 none (some ("lo")))) =
      some { t2 with choices := setAt (padTo t2.choices (0 + 1)) 0 (msgEntry (entryAt t2.choices 0) Role.Assistant (("" ++ "Hel") ++ "lo")) } := by
    rw [mergeDelta_single _ _ _ rfl,
      applyChoice_text_append t2 0 ("lo") ({ role := Role.Assistant, content := "" ++ "Hel" }) (by rw [e2]; rfl)]
  refine ⟨{ t2 with choices := setAt (padTo t2.choices (0 + 1)) 0 (msgEntry (entryAt t2.choices 0) Role.Assistant (("" ++ "Hel") ++ "lo")) }, ?_, ?_⟩
  · simp only [mergeAll, h1, h2, h3]
  · simp only [hat, msgEntry]
    decide

/-- A concrete target for the C3 witness: one choice at index 0 holding a
message. -/
def msgTarget : CompletionResponse :=
  { emptyResponse with choices :=
      [{ index := 0, message := some (Message.assistant ("x")), delta := none, finish_reason := none }] }

/-- Witness for C3 at a concrete target. -/
theorem merge_same_index_appends_witness :
    (0 < msgTarget.choices.length ∧ (entryAt msgTarget.choices 0).message.isSome) ∧
    (∃ r,
      mergeAll msgTarget
          [frag (deltaC 0 (some Role.Assistant) (some "")),
           frag (deltaC 0 none (some ("Hel"))),
           frag (deltaC 0 none (some ("lo")))] = some r ∧
      (entryAt r.choices 0).message = some ({ role := Role.Assistant, content := "Hello" })) :=
  ⟨⟨by decide, by decide⟩, merge_same_index_appends msgTarget ⟨by decide, by decide⟩⟩

/-- C4: `merge_delta` gap-fills.  Whenever the target's choice sequence is
shorter than `index + 1`, it is extended with default-valued Choices up to
and including that index; existing entries are untouched, the gap entries
are default-valued, and the entry at the fragment's index carries the
fragment's role and text. -/
theorem merge_gap_fills (target : CompletionResponse) (i : Nat) (r : Role) (ct : String)
    (h : target.choices.length < i + 1) :
    ∃ resp,
      mergeDelta target (frag (deltaC i (some r) (some ct))) = some resp ∧
      resp.choices.length = i + 1 ∧
      (∀ j, j < target.choices.length → entryAt resp.choices j = entryAt target.choices j) ∧
      (∀ j, target.choices.length ≤ j → j < i → entryAt resp.choices j = default) ∧
      entryAt resp.choices i =
        { index := 0, message := some ({ role := r, content := ct }), delta := none, finish_reason := none } := by
  rw [mergeDelta_single _ _ _ rfl, applyChoice_role_text]
  refine ⟨_, rfl, ?_, ?_, ?_, ?_⟩
  · show (setAt (padTo target.choices (i + 1)) i _).length = i + 1
    rw [length_setAt, length_padTo]
    omega
  · intro j hj
    show entryAt (setAt (padTo target.choices (i + 1)) i _) j = _
    rw [entryAt_setAt_ne _ _ _ _ (by omega), entryAt_padTo]
  · intro j hj1 hj2
    show entryAt (setAt (padTo target.choices (i + 1)) i _) j = _
    rw [entryAt_setAt_ne _ _ _ _ (by omega), entryAt_padTo]
    exact entryAt_ge_length _ _ hj1
  · show entryAt (setAt (padTo target.choices (i + 1)) i _) i = _
    rw [entryAt_setAt_self _ _ _ (by rw [length_padTo]; omega)]
    rw [msgEntry, entryAt_ge_length _ _ (by omega)]
    rfl

/-- Witness for C4: the concrete gap-fill example of the spec, a single
fragment with index 2 merged into an empty Response. -/
theorem merge_gap_fills_witness :
    emptyResponse.choices.length < 2 + 1 ∧
    (∃ resp,
      mergeDelta emptyResponse (frag (deltaC 2 (some Role.Assistant) (some ("hi")))) = some resp ∧
      resp.choices.length = 2 + 1 ∧
      (∀ j, j < emptyResponse.choices.length → entryAt resp.choices j = entryAt emptyResponse.choices j) ∧
      (∀ j, emptyResponse.choices.length ≤ j → j < 2 → entryAt resp.choices j = default) ∧
      entryAt resp.choices 2 =
        { index := 0, message := some ({ role := Role.Assistant, content := "hi" }), delta := none, finish_reason := none }) :=
  ⟨by decide, merge_gap_fills emptyResponse 2 Role.Assistant ("hi") (by decide)⟩

/-- Reading an index untouched by a pad-and-set at a different index. -/
theorem entryAt_after (l : List Choice) (i j : Nat) (v : Choice) (h : j ≠ i) :
    entryAt (setAt (padTo l (i + 1)) i v) j = entryAt l j := by
  rw [entryAt_setAt_ne _ _ _ _ h, entryAt_padTo]

/-- Two pad-and-set updates at distinct indices commute. -/
theorem setAt_padTo_comm (l : List Choice) (i j : Nat) (vA vB : Choice) (h : i ≠ j) :
    setAt (padTo (setAt (padTo l (i + 1)) i vA) (j + 1)) j vB =
    setAt (padTo (setAt (padTo l (j + 1)) j vB) (i + 1)) i vA := by
  rw [setAt_padTo _ _ _ _ (by rw [length_padTo]; omega)]
  rw [setAt_padTo _ _ _ _ (by rw [length_padTo]; omega)]
  rw [padTo_padTo, padTo_padTo, Nat.max_comm (i + 1) (j + 1)]
  exact setAt_comm _ _ _ _ _ h

/-- The core of C5: the loop body of `merge_delta` commutes across two
choices with distinct indices, panics included. -/
theorem applyChoice_comm (t : CompletionResponse) (c1 c2 : Choice) (h : c1.index ≠ c2.index) :
    (applyChoice t c1).bind (fun r => applyChoice r c2) =
    (applyChoice t c2).bind (fun r => applyChoice r c1) := by
  have h21 : c2.index ≠ c1.index := Ne.symm h
  cases hA : deltaApply (entryAt t.choices c1.index) c1.delta with
  | none =>
    cases hB : deltaApply (entryAt t.choices c2.index) c2.delta with
    | none =>
      rw [applyChoice_norm t c1, applyChoice_norm t c2, hA, hB]
      rfl
    | some vB =>
      rw [applyChoice_norm t c1, applyChoice_norm t c2, hA, hB]
      simp only [Option.map_none', Option.map_some', Option.none_bind, Option.some_bind]
      rw [applyChoice_norm]
      dsimp only
      rw [entryAt_after _ _ _ _ h, hA]
      rfl
  | some vA =>
    cases hB : deltaApply (entryAt t.choices c2.index) c2.delta with
    | none =>
      rw [applyChoice_norm t c1, applyChoice_norm t c2, hA, hB]
      simp only [Option.map_none', Option.map_some', Option.none_bind, Option.some_bind]
      rw [applyChoice_norm]
      dsimp only
      rw [entryAt_after _ _ _ _ h21, hB]
      rfl
    | some vB =>
      rw [applyChoice_norm t c1, applyChoice_norm t c2, hA, hB]
      simp only [Option.map_some', Option.some_bind]
      rw [applyChoice_norm, applyChoice_norm]
      dsimp only
      rw [entryAt_after _ _ _ _ h, entryAt_after _ _ _ _ h21, hA, hB]
      simp only [Option.map_some']
      refine congrArg some ?_
      rw [setAt_padTo_comm t.choices c1.index c2.index vA vB h]

/-- C5: for any two single-choice delta fragments addressing different
Choice indices, merging them into any target in either order yields the
same final result (the same Response, or a panic in both orders), even
when one fragment gap-fills past the other's index. -/
theorem merge_distinct_index_comm (t f1 f2 : CompletionResponse) (c1 c2 : Choice)
    (h1 : f1.choices = [c1]) (h2 : f2.choices = [c2]) (hne : c1.index ≠ c2.index) :
    (mergeDelta t f1).bind (fun r => mergeDelta r f2) =
    (mergeDelta t f2).bind (fun r => mergeDelta r f1) := by
  have e1 : ∀ r, mergeDelta r f1 = applyChoice r c1 := fun r => mergeDelta_single r f1 c1 h1
  have e2 : ∀ r, mergeDelta r f2 = applyChoice r c2 := fun r => mergeDelta_single r f2 c2 h2
  simp only [e1, e2]
  exact applyChoice_comm t c1 c2 hne

/-- Witness for C5: indices 2 and 0 against an empty target, so that one
order gap-fills past the other's index. -/
theorem merge_distinct_index_comm_witness :
    (mergeDelta emptyResponse (frag (deltaC 2 (some Role.Assistant) (some ("x"))))).bind
        (fun r => mergeDelta r (frag (deltaC 0 (some Role.User) (some ("y"))))) =
      (mergeDelta emptyResponse (frag (deltaC 0 (some Role.User) (some ("y"))))).bind
        (fun r => mergeDelta r (frag (deltaC 2 (some Role.Assistant) (some ("x"))))) :=
  merge_distinct_index_comm emptyResponse _ _
    (deltaC 2 (some Role.Assistant) (some ("x"))) (deltaC 0 (some Role.User) (some ("y")))
    rfl rfl (by decide)

/-! ### C9: role-before-text ordering makes the `unwrap` unreachable -/

/-- The choice's delta carries a role. -/
def rolePresent (c : Choice) : Bool := (c.delta.bind MessageDelta.role).isSome

/-- The choice's delta carries text. -/
def contentPresent (c : Choice) : Bool := (c.delta.bind MessageDelta.content).isSome

/-- Role-then-text ordering over a flattened choice sequence: every
text-bearing delta at an index either carries a role itself or is preceded
by a role-bearing delta at the same index (`seen` records the indices whose
role has already been merged). -/
def rbtOk (seen : List Nat) : List Choice → Bool
  | [] => true
  | c :: rest =>
    let textOk := match c.delta with
      | some d => d.content.isNone || d.role.isSome || decide (c.index ∈ seen)
      | none => true
    let seen1 := match c.delta with
      | some d => if d.role.isSome then c.index :: seen else seen
      | none => seen
    textOk && rbtOk seen1 rest

theorem deltaApply_preserves_some (own : Choice) (d : Option MessageDelta) (v : Choice)
    (hv : deltaApply own d = some v) (hm : own.message.isSome = true) :
    v.message.isSome = true := by
  cases d with
  | none =>
    simp only [deltaApply, Option.some.injEq] at hv
    subst hv
    exact hm
  | some δ =>
    cases hr : δ.role with
    | some r =>
      cases hc : δ.content with
      | none => simp [deltaApply, hr, hc] at hv; subst hv; simp
      | some s => simp [deltaApply, hr, hc] at hv; subst hv; simp
    | none =>
      cases hc : δ.content with
      | none => simp [deltaApply, hr, hc] at hv; subst hv; exact hm
      | some s =>
        cases hm2 : own.message with
        | none => rw [hm2] at hm; simp at hm
        | some m => simp [deltaApply, hr, hc, hm2] at hv; subst hv; simp

theorem deltaApply_role_some (own : Choice) (δ : MessageDelta) (r : Role)
    (hr : δ.role = some r) (v : Choice) (hv : deltaApply own (some δ) = some v) :
    v.message.isSome = true := by
  cases hc : δ.content with
  | none => simp [deltaApply, hr, hc] at hv; subst hv; simp
  | some s => simp [deltaApply, hr, hc] at hv; subst hv; simp

theorem applyChoice_preserves (t : CompletionResponse) (c : Choice) (t' : CompletionResponse)
    (h : applyChoice t c = some t') (i : Nat)
    (hm : (entryAt t.choices i).message.isSome = true) :
    (entryAt t'.choices i).message.isSome = true := by
  rw [applyChoice_norm] at h
  cases hv : deltaApply (entryAt t.choices c.index) c.delta with
  | none => rw [hv] at h; simp at h
  | some v =>
    rw [hv] at h
    simp only [Option.map_some', Option.some.injEq] at h
    subst h
    dsimp only
    by_cases hic : i = c.index
    · subst hic
      rw [entryAt_setAt_self _ _ _ (by rw [length_padTo]; omega)]
      exact deltaApply_preserves_some _ _ _ hv hm
    · rw [entryAt_after _ _ _ _ hic]
      exact hm

theorem applyChoice_role_sets (t : CompletionResponse) (c : Choice) (t' : CompletionResponse)
    (h : applyChoice t c = some t') (hr : rolePresent c = true) :
    (entryAt t'.choices c.index).message.isSome = true := by
  rw [applyChoice_norm] at h
  cases hd : c.delta with
  | none => simp [rolePresent, hd] at hr
  | some δ =>
    cases hrr : δ.role with
    | none => simp [rolePresent, hd, hrr] at hr
    | some r =>
      rw [hd] at h
      cases hv : deltaApply (entryAt t.choices c.index) (some δ) with
      | none => rw [hv] at h; simp at h
      | some v =>
        rw [hv] at h
        simp only [Option.map_some', Option.some.injEq] at h
        subst h
        dsimp only
        rw [entryAt_setAt_self _ _ _ (by rw [length_padTo]; omega)]
        exact deltaApply_role_some _ _ _ hrr _ hv

theorem applyChoice_succeeds (t : CompletionResponse) (c : Choice)
    (h : rolePresent c = true ∨ contentPresent c = false ∨
      (entryAt t.choices c.index).message.isSome = true) :
    (applyChoice t c).isSome = true := by
  rw [applyChoice_norm]
  cases hd : c.delta with
  | none => simp [deltaApply]
  | some δ =>
    cases hr : δ.role with
    | some r =>
      cases hc : δ.content with
      | none => simp [deltaApply, hr, hc]
      | some s => simp [deltaApply, hr, hc]
    | none =>
      cases hc : δ.content with
      | none => simp [deltaApply, hr, hc]
      | some s =>
        have hm : (entryAt t.choices c.index).message.isSome = true := by
          rcases h with h | h | h
          · simp [rolePresent, hd, hr] at h
          · simp [contentPresent, hd, hc] at h
          · exact h
        cases hm2 : (entryAt t.choices c.index).message with
        | none => rw [hm2] at hm; simp at hm
        | some m => simp [deltaApply, hr, hc, hm2]

theorem applyAll_rbt_isSome (cs : List Choice) (t : CompletionResponse) (seen : List Nat)
    (hseen : ∀ i, i ∈ seen → (entryAt t.choices i).message.isSome = true)
    (hok : rbtOk seen cs = true) : (applyAll t cs).isSome = true := by
  induction cs generalizing t seen with
  | nil => simp [applyAll]
  | cons c cs ih =>
    simp only [rbtOk, Bool.and_eq_true] at hok
    obtain ⟨hok1, hok2⟩ := hok
    cases hd : c.delta with
    | none =>
      rw [hd] at hok2
      have hs : (applyChoice t c).isSome = true :=
        applyChoice_succeeds t c (Or.inr (Or.inl (by simp [contentPresent, hd])))
      obtain ⟨t', ht'⟩ := Option.isSome_iff_exists.mp hs
      rw [applyAll, ht']
      exact ih t' seen (fun i hi => applyChoice_preserves t c t' ht' i (hseen i hi)) hok2
    | some δ =>
      cases hr : δ.role with
      | some r =>
        simp only [hd, hr, Option.isSome_some, if_true] at hok2
        have hs : (applyChoice t c).isSome = true :=
          applyChoice_succeeds t c (Or.inl (by simp [rolePresent, hd, hr]))
        obtain ⟨t', ht'⟩ := Option.isSome_iff_exists.mp hs
        rw [applyAll, ht']
        refine ih t' (c.index :: seen) ?_ hok2
        intro i hi
        rcases List.mem_cons.mp hi with hi | hi
        · subst hi
          exact applyChoice_role_sets t c t' ht' (by simp [rolePresent, hd, hr])
        · exact applyChoice_preserves t c t' ht' i (hseen i hi)
      | none =>
        simp only [hd, hr, Option.isSome_none, Bool.false_eq_true, if_false] at hok2
        cases hc : δ.content with
        | none =>
          have hs : (applyChoice t c).isSome = true :=
            applyChoice_succeeds t c (Or.inr (Or.inl (by simp [contentPresent, hd, hc])))
          obtain ⟨t', ht'⟩ := Option.isSome_iff_exists.mp hs
          rw [applyAll, ht']
          exact ih t' seen (fun i hi => applyChoice_preserves t c t' ht' i (hseen i hi)) hok2
        | some s =>
          simp only [hd, hr, hc, Option.isNone_some, Option.isSome_none, Bool.false_or,
            decide_eq_true_eq] at hok1
          have hs : (applyChoice t c).isSome = true :=
            applyChoice_succeeds t c (Or.inr (Or.inr (hseen c.index hok1)))
          obtain ⟨t', ht'⟩ := Option.isSome_iff_exists.mp hs
          rw [applyAll, ht']
          exact ih t' seen (fun i hi => applyChoice_preserves t c t' ht' i (hseen i hi)) hok2

/-- C9: under the role-then-text precondition (for each index, a delta
carrying a role is merged at that index no later than the first delta
carrying text at that index), the `unwrap` in `merge_delta`'s text-append
step never fires: merging the whole fragment sequence into any target
completes without a panic. -/
theorem merge_role_before_text_total (target : CompletionResponse)
    (frags : List CompletionResponse)
    (h : rbtOk [] (fragChoices frags) = true) :
    (mergeAll target frags).isSome = true := by
  rw [mergeAll_eq_applyAll]
  exact applyAll_rbt_isSome _ _ _ (fun i hi => absurd hi (List.not_mem_nil i)) h

/-- Witness for C9 on a concrete role-then-text fragment sequence. -/
theorem merge_role_before_text_total_witness :
    rbtOk []
        (fragChoices
          [frag (deltaC 0 (some Role.Assistant) (some (""))),
           frag (deltaC 0 none (some ("Hi")))]) = true ∧
    (mergeAll emptyResponse
        [frag (deltaC 0 (some Role.Assistant) (some (""))),
         frag (deltaC 0 none (some ("Hi")))]).isSome = true :=
  ⟨by decide, merge_role_before_text_total emptyResponse _ (by decide)⟩

/-! ## Frame Parser (src/misc.rs)

`SSEStream<T>` holds a byte source, a growable zero-initialised buffer and a
fill mark.  Bytes are `Nat` (values below 256).  `next` is modelled with
explicit fuel for its unbounded read loop (`diverged` = the loop never
returns).  The scan is `String::from_utf8_lossy(&self.buf).find("\n\n")`:
it decodes the WHOLE buffer (not only the filled region) permissively and
searches for the first double newline, so the model decodes the whole
buffer with a faithful UTF-8 lossy decoder and searches the decoded bytes.
Panics (slice out of range at `&self.buf[6..splitpos]`, and the debug-mode
underflow of `self.filled -= splitpos + 2`) are the `panicked` outcome. -/

/-- UTF-8 continuation byte, `0x80..=0xBF`. -/
def isCont (b : Nat) : Bool := 128 ≤ b && b ≤ 191

/-- The UTF-8 encoding of U+FFFD REPLACEMENT CHARACTER. -/
def fffd : List Nat := [239, 191, 189]

/-- The byte sequence of `String::from_utf8_lossy`: valid UTF-8 sequences
are kept, each maximal ill-formed subpart is replaced by one U+FFFD
(Rust's substitution-of-maximal-subparts policy). -/
def lossyDecode : List Nat → List Nat
  | [] => []
  | b :: rest =>
    if b ≤ 127 then b :: lossyDecode rest
    else if 194 ≤ b && b ≤ 223 then
      match rest with
      | [] => fffd
      | c1 :: r2 =>
        if isCont c1 then b :: c1 :: lossyDecode r2
        else fffd ++ lossyDecode (c1 :: r2)
    else if 224 ≤ b && b ≤ 239 then
      let lo := if b = 224 then 160 else 128
      let hi := if b = 237 then 159 else 191
      match rest with
      | [] => fffd
      | c1 :: r2 =>
        if lo ≤ c1 && c1 ≤ hi then
          match r2 with
          | [] => fffd
          | c2 :: r3 =>
            if isCont c2 then b :: c1 :: c2 :: lossyDecode r3
            else fffd ++ lossyDecode (c2 :: r3)
        else fffd ++ lossyDecode (c1 :: r2)
    else if 240 ≤ b && b ≤ 244 then
      let lo := if b = 240 then 144 else 128
      let hi := if b = 244 then 143 else 191
      match rest with
      | [] => fffd
      | c1 :: r2 =>
        if lo ≤ c1 && c1 ≤ hi then
          match r2 with
          | [] => fffd
          | c2 :: r3 =>
            if isCont c2 then
              match r3 with
              | [] => fffd
              | c3 :: r4 =>
                if isCont c3 then b :: c1 :: c2 :: c3 :: lossyDecode r4
                else fffd ++ lossyDecode (c3 :: r4)
            else fffd ++ lossyDecode (c2 :: r3)
        else fffd ++ lossyDecode (c1 :: r2)
    else fffd ++ lossyDecode rest

/-- `str::find("\n\n")`: byte position of the first double newline. -/
def findNlNl : List Nat → Option Nat
  | a :: b :: rest =>
    if a = 10 && b = 10 then some 0
    else (findNlNl (b :: rest)).map (fun p => p + 1)
  | _ => none

/-- ASCII bytes of a string literal (all inputs used here are ASCII). -/
def strBytes (s : String) : List Nat := s.data.map Char.toNat

/-- The terminal sentinel payload `[DONE]`, as bytes. -/
def doneBytes : List Nat := strBytes ("[DONE]")

/-- One item of the byte source: a chunk of bytes delivered by a successful
`read`, or an I/O error. -/
inductive SSERead where
  | chunk (bs : List Nat)
  | ioError
deriving DecidableEq, Repr

/-- `self.source.read(&mut self.buf[self.filled..])`: a read delivers at
most `space` bytes from the front of the source; an exhausted source is a
clean EOF returning `Ok(0)` forever. -/
def srcRead : List SSERead → Nat → Option (List Nat) × List SSERead
  | [], _ => (some [], [])
  | SSERead.ioError :: rest, _ => (none, rest)
  | SSERead.chunk bs :: rest, space =>
    if bs.length ≤ space then (some bs, rest)
    else (some (bs.take space), SSERead.chunk (bs.drop space) :: rest)

/-- Writing `bs` into the buffer at position `pos` (the read appending into
`buf[filled..]`); callers guarantee `pos + bs.length ≤ buf.length`. -/
def listWrite (buf : List Nat) (pos : Nat) (bs : List Nat) : List Nat :=
  buf.take pos ++ bs ++ buf.drop (pos + bs.length)

/-- The slice `buf[a..b]` (callers guard `a ≤ b ≤ buf.length`). -/
def sliceList (buf : List Nat) (a b : Nat) : List Nat :=
  (buf.drop a).take (b - a)

/-- The parser state: `buf: Vec<u8>` and `filled: usize`. -/
structure SSEState where
  buf : List Nat
  filled : Nat
deriving DecidableEq, Repr

/-- `SSEStream::new`: a 4 KiB zeroed buffer, nothing filled. -/
def sseNew : SSEState := { buf := List.replicate (1024 * 4) 0, filled := 0 }

/-- The outcome of one call to `next`. -/
inductive NextOutcome where
  | yield (payload : List Nat)
  | finished
  | panicked
  | diverged
deriving DecidableEq, Repr

/-- Result of one call to `next`: outcome, new parser state, remaining
source, and the free-space slack observed immediately before each read the
call issued (instrumentation for the slack invariant). -/
structure NextRes where
  outcome : NextOutcome
  state : SSEState
  src : List SSERead
  reads : List Nat
deriving DecidableEq, Repr

/-- The `loop { read; scan; ... }` of `SSEStream::next` (misc.rs lines
25-58), with fuel bounding the number of reads.  Each iteration: read into
`buf[filled..]`, advance the fill mark, scan the lossy decoding of the
whole buffer for `"\n\n"`; on a hit, slice the payload out of the raw
buffer from offset 6 (panicking if the delimiter sits before offset 6),
suppress `[DONE]`, compact the consumed frame out of the buffer and reduce
the fill mark (panicking on underflow, the debug semantics of
`self.filled -= splitpos + 2`). -/
def nextLoop : Nat → SSEState → List SSERead → NextRes
  | 0, s, src => { outcome := NextOutcome.diverged, state := s, src := src, reads := [] }
  | fuel + 1, s, src =>
    match srcRead src (s.buf.length - s.filled) with
    | (none, src1) =>
      { outcome := NextOutcome.finished, state := s, src := src1,
        reads := [s.buf.length - s.filled] }
    | (some bs, src1) =>
      let buf := listWrite s.buf s.filled bs
      let filled := s.filled + bs.length
      match findNlNl (lossyDecode buf) with
      | none =>
        let r := nextLoop fuel { buf := buf, filled := filled } src1
        { outcome := r.outcome, state := r.state, src := r.src,
          reads := (s.buf.length - s.filled) :: r.reads }
      | some splitpos =>
        if splitpos < 6 ∨ buf.length < splitpos then
          { outcome := NextOutcome.panicked, state := { buf := buf, filled := filled },
            src := src1, reads := [s.buf.length - s.filled] }
        else
          let data := lossyDecode (sliceList buf 6 splitpos)
          if data = doneBytes then
            { outcome := NextOutcome.finished, state := { buf := buf, filled := filled },
              src := src1, reads := [s.buf.length - s.filled] }
          else if filled < splitpos + 2 then
            { outcome := NextOutcome.panicked, state := { buf := buf, filled := filled },
              src := src1, reads := [s.buf.length - s.filled] }
          else
            let buf2 := sliceList buf (splitpos + 2) filled ++ buf.drop (filled - (splitpos + 2))
            { outcome := NextOutcome.yield data,
              state := { buf := buf2, filled := filled - (splitpos + 2) },
              src := src1, reads := [s.buf.length - s.filled] }

/-- The slack check at the top of `next` (misc.rs lines 21-23):
`resize_with(len * 2)` appends zeros when less than 128 bytes are free. -/
def growIfNeeded (s : SSEState) : SSEState :=
  if s.buf.length - s.filled < 128 then
    { s with buf := s.buf ++ List.replicate s.buf.length 0 }
  else s

/-- `SSEStream::next`: slack check (whose `usize` subtraction would panic in
debug mode if the fill mark exceeded the buffer), then the read loop. -/
def sseNext (fuel : Nat) (s : SSEState) (src : List SSERead) : NextRes :=
  if s.buf.length < s.filled then
    { outcome := NextOutcome.panicked, state := s, src := src, reads := [] }
  else nextLoop fuel (growIfNeeded s) src

/-- How a full iteration of the `SSEStream` iterator ends. -/
inductive RunEnd where
  | finished
  | panicked
  | diverged
  | fuelOut
deriving DecidableEq, Repr

/-- Iterating `next` to exhaustion: the sequence of yielded payloads and
how the iteration ended. -/
def sseRun (innerFuel : Nat) : Nat → SSEState → List SSERead → List (List Nat) × RunEnd
  | 0, _, _ => ([], RunEnd.fuelOut)
  | n + 1, s, src =>
    let r := sseNext innerFuel s src
    match r.outcome with
    | NextOutcome.finished => ([], RunEnd.finished)
    | NextOutcome.panicked => ([], RunEnd.panicked)
    | NextOutcome.diverged => ([], RunEnd.diverged)
    | NextOutcome.yield p =>
      let rest := sseRun innerFuel n r.state r.src
      (p :: rest.1, rest.2)

/-- All bytes a source will ever deliver, in order. -/
def srcBytes : List SSERead → List Nat
  | [] => []
  | SSERead.chunk bs :: r => bs ++ srcBytes r
  | SSERead.ioError :: r => srcBytes r

/-! ### Symbolic evaluation toolkit for canonical buffers

The parser's buffers always have the shape `p ++ List.replicate k 0` with a
short interesting prefix `p`; these lemmas evaluate the parser's operations
on that shape without unfolding the long zero tail. -/

theorem findNlNl_none_of_not_mem (xs : List Nat) (h : 10 ∉ xs) : findNlNl xs = none := by
  induction xs with
  | nil => rfl
  | cons a rest ih =>
    cases rest with
    | nil => rfl
    | cons b r2 =>
      have ha : a ≠ 10 := fun hc => h (by rw [hc]; exact List.mem_cons_self _ _)
      rw [findNlNl, if_neg (by simp [ha]), ih (fun hc => h (List.mem_cons_of_mem _ hc))]
      rfl

theorem findNlNl_append_no_nl (xs ys : List Nat) (h : 10 ∉ ys) :
    findNlNl (xs ++ ys) = findNlNl xs := by
  induction xs with
  | nil => simpa using findNlNl_none_of_not_mem ys h
  | cons a rest ih =>
    cases rest with
    | nil =>
      cases hys : ys with
      | nil => rfl
      | cons y yr =>
        have hy : y ≠ 10 := fun hc => h (by rw [hys, hc]; exact List.mem_cons_self _ _)
        show findNlNl (a :: y :: yr) = findNlNl [a]
        rw [findNlNl, if_neg (by simp [hy]),
          findNlNl_none_of_not_mem (y :: yr) (by rw [← hys]; exact h)]
        rfl
    | cons b r2 =>
      show findNlNl (a :: b :: (r2 ++ ys)) = findNlNl (a :: b :: r2)
      rw [findNlNl, findNlNl]
      by_cases hab : a = 10 && b = 10
      · rw [if_pos hab, if_pos hab]
      · rw [if_neg hab, if_neg hab, ← List.cons_append, ih]

theorem lossyDecode_ascii (xs : List Nat) (h : ∀ b ∈ xs, b ≤ 127) :
    lossyDecode xs = xs := by
  induction xs with
  | nil => rfl
  | cons b rest ih =>
    have hb : b ≤ 127 := h b (List.mem_cons_self _ _)
    rw [lossyDecode.eq_def]
    dsimp only
    rw [if_pos hb, ih (fun x hx => h x (List.mem_cons_of_mem _ hx))]

theorem ascii_canon (p : List Nat) (k : Nat) (hp : ∀ b ∈ p, b ≤ 127) :
    ∀ b ∈ p ++ List.replicate k 0, b ≤ 127 := by
  intro b hb
  rcases List.mem_append.mp hb with h | h
  · exact hp b h
  · rw [List.eq_of_mem_replicate h]
    omega

/-- Scanning a canonical buffer: the zero tail is ASCII and holds no
newline, so the scan reduces to the short prefix. -/
theorem scan_canon (p : List Nat) (k : Nat) (hp : ∀ b ∈ p, b ≤ 127) :
    findNlNl (lossyDecode (p ++ List.replicate k 0)) = findNlNl p := by
  rw [lossyDecode_ascii _ (ascii_canon p k hp)]
  refine findNlNl_append_no_nl p _ (fun hmem => ?_)
  have h10 := List.eq_of_mem_replicate hmem
  omega

theorem length_canon (p : List Nat) (k : Nat) :
    (p ++ List.replicate k 0).length = p.length + k := by
  simp [List.length_append, List.length_replicate]

theorem listWrite_canon (p : List Nat) (k pos : Nat) (bs : List Nat)
    (hpos : pos ≤ p.length) (hin : pos + bs.length ≤ p.length) :
    listWrite (p ++ List.replicate k 0) pos bs =
      (p.take pos ++ bs ++ p.drop (pos + bs.length)) ++ List.replicate k 0 := by
  unfold listWrite
  rw [List.take_append_of_le_length hpos, List.drop_append_of_le_length hin]
  simp [List.append_assoc]

theorem drop_append_ge (xs ys : List Nat) (n : Nat) (h : xs.length ≤ n) :
    (xs ++ ys).drop n = ys.drop (n - xs.length) := by
  have h2 : n = xs.length + (n - xs.length) := by omega
  conv_lhs => rw [h2]
  rw [List.drop_append]

theorem listWrite_canon_ext (p : List Nat) (k pos : Nat) (bs : List Nat)
    (hpos : pos ≤ p.length) (hext : p.length ≤ pos + bs.length) :
    listWrite (p ++ List.replicate k 0) pos bs =
      (p.take pos ++ bs) ++ List.replicate (k - (pos + bs.length - p.length)) 0 := by
  unfold listWrite
  rw [List.take_append_of_le_length hpos,
    drop_append_ge _ _ _ hext, List.drop_replicate]

theorem listWrite_nil_bs (buf : List Nat) (pos : Nat) : listWrite buf pos [] = buf := by
  simp [listWrite]

theorem sliceList_canon (p : List Nat) (k a b : Nat) (hab : a ≤ b) (hb : b ≤ p.length) :
    sliceList (p ++ List.replicate k 0) a b = sliceList p a b := by
  unfold sliceList
  rw [List.drop_append_of_le_length (le_trans hab hb),
    List.take_append_of_le_length (by rw [List.length_drop]; omega)]

theorem drop_canon (p : List Nat) (k m : Nat) (hm : m ≤ p.length) :
    (p ++ List.replicate k 0).drop m = p.drop m ++ List.replicate k 0 :=
  List.drop_append_of_le_length hm

/-! ### One-iteration lemmas for `nextLoop` -/

theorem srcRead_chunk_all (bs : List Nat) (rest : List SSERead) (space : Nat)
    (h : bs.length ≤ space) :
    srcRead (SSERead.chunk bs :: rest) space = (some bs, rest) := by
  simp only [srcRead, if_pos h]

theorem srcRead_eof (space : Nat) : srcRead [] space = (some [], []) := rfl

theorem nextLoop_continue (fuel : Nat) (s : SSEState) (src src1 : List SSERead)
    (bs buf1 : List Nat)
    (hread : srcRead src (s.buf.length - s.filled) = (some bs, src1))
    (hbuf : listWrite s.buf s.filled bs = buf1)
    (hfind : findNlNl (lossyDecode buf1) = none) :
    nextLoop (fuel + 1) s src =
      { nextLoop fuel { buf := buf1, filled := s.filled + bs.length } src1 with
        reads := (s.buf.length - s.filled) ::
          (nextLoop fuel { buf := buf1, filled := s.filled + bs.length } src1).reads } := by
  subst hbuf
  simp only [nextLoop, hread, hfind]

theorem nextLoop_yield (fuel : Nat) (s : SSEState) (src src1 : List SSERead)
    (bs buf1 d : List Nat) (sp : Nat)
    (hread : srcRead src (s.buf.length - s.filled) = (some bs, src1))
    (hbuf : listWrite s.buf s.filled bs = buf1)
    (hfind : findNlNl (lossyDecode buf1) = some sp)
    (h6 : 6 ≤ sp) (hlen : sp ≤ buf1.length)
    (hdata : lossyDecode (sliceList buf1 6 sp) = d)
    (hnotdone : ¬(d = doneBytes))
    (hfl : sp + 2 ≤ s.filled + bs.length) :
    nextLoop (fuel + 1) s src =
      { outcome := NextOutcome.yield d,
        state := { buf := sliceList buf1 (sp + 2) (s.filled + bs.length) ++
                     buf1.drop (s.filled + bs.length - (sp + 2)),
                   filled := s.filled + bs.length - (sp + 2) },
        src := src1, reads := [s.buf.length - s.filled] } := by
  subst hbuf
  simp only [nextLoop, hread, hfind, hdata]
  rw [if_neg (by omega), if_neg hnotdone, if_neg (by omega)]

theorem nextLoop_done (fuel : Nat) (s : SSEState) (src src1 : List SSERead)
    (bs buf1 : List Nat) (sp : Nat)
    (hread : srcRead src (s.buf.length - s.filled) = (some bs, src1))
    (hbuf : listWrite s.buf s.filled bs = buf1)
    (hfind : findNlNl (lossyDecode buf1) = some sp)
    (h6 : 6 ≤ sp) (hlen : sp ≤ buf1.length)
    (hdata : lossyDecode (sliceList buf1 6 sp) = doneBytes) :
    nextLoop (fuel + 1) s src =
      { outcome := NextOutcome.finished,
        state := { buf := buf1, filled := s.filled + bs.length },
        src := src1, reads := [s.buf.length - s.filled] } := by
  subst hbuf
  simp only [nextLoop, hread, hfind, hdata]
  rw [if_neg (by omega)]
  simp only [if_true]

theorem nextLoop_panic_underflow (fuel : Nat) (s : SSEState) (src src1 : List SSERead)
    (bs buf1 d : List Nat) (sp : Nat)
    (hread : srcRead src (s.buf.length - s.filled) = (some bs, src1))
    (hbuf : listWrite s.buf s.filled bs = buf1)
    (hfind : findNlNl (lossyDecode buf1) = some sp)
    (h6 : 6 ≤ sp) (hlen : sp ≤ buf1.length)
    (hdata : lossyDecode (sliceList buf1 6 sp) = d)
    (hnotdone : ¬(d = doneBytes))
    (hfl : s.filled + bs.length < sp + 2) :
    nextLoop (fuel + 1) s src =
      { outcome := NextOutcome.panicked,
        state := { buf := buf1, filled := s.filled + bs.length },
        src := src1, reads := [s.buf.length - s.filled] } := by
  subst hbuf
  simp only [nextLoop, hread, hfind, hdata]
  rw [if_neg (by omega), if_neg hnotdone, if_pos (by omega)]

theorem nextLoop_panic_short (fuel : Nat) (s : SSEState) (src src1 : List SSERead)
    (bs buf1 : List Nat) (sp : Nat)
    (hread : srcRead src (s.buf.length - s.filled) = (some bs, src1))
    (hbuf : listWrite s.buf s.filled bs = buf1)
    (hfind : findNlNl (lossyDecode buf1) = some sp)
    (hsp : sp < 6) :
    nextLoop (fuel + 1) s src =
      { outcome := NextOutcome.panicked,
        state := { buf := buf1, filled := s.filled + bs.length },
        src := src1, reads := [s.buf.length - s.filled] } := by
  subst hbuf
  simp only [nextLoop, hread, hfind]
  rw [if_pos (Or.inl hsp)]

theorem sseNext_no_grow (fuel : Nat) (s : SSEState) (src : List SSERead)
    (h1 : s.filled ≤ s.buf.length) (h2 : 128 ≤ s.buf.length - s.filled) :
    sseNext fuel s src = nextLoop fuel s src := by
  unfold sseNext growIfNeeded
  rw [if_neg (by omega), if_neg (by omega)]

theorem sseNext_no_grow_mk (fuel : Nat) (buf : List Nat) (filled : Nat) (src : List SSERead)
    (h1 : filled ≤ buf.length) (h2 : 128 ≤ buf.length - filled) :
    sseNext fuel { buf := buf, filled := filled } src =
      nextLoop fuel { buf := buf, filled := filled } src :=
  sseNext_no_grow fuel _ src h1 h2

theorem sseRun_yield_step (innerFuel n : Nat) (s : SSEState) (src : List SSERead)
    (p : List Nat) (s2 : SSEState) (src2 : List SSERead) (reads : List Nat)
    (h : sseNext innerFuel s src =
      { outcome := NextOutcome.yield p, state := s2, src := src2, reads := reads }) :
    sseRun innerFuel (n + 1) s src =
      (p :: (sseRun innerFuel n s2 src2).1, (sseRun innerFuel n s2 src2).2) := by
  simp only [sseRun, h]

theorem sseRun_finished_step (innerFuel n : Nat) (s : SSEState) (src : List SSERead)
    (h : (sseNext innerFuel s src).outcome = NextOutcome.finished) :
    sseRun innerFuel (n + 1) s src = ([], RunEnd.finished) := by
  simp only [sseRun, h]

theorem sseRun_panicked_step (innerFuel n : Nat) (s : SSEState) (src : List SSERead)
    (h : (sseNext innerFuel s src).outcome = NextOutcome.panicked) :
    sseRun innerFuel (n + 1) s src = ([], RunEnd.panicked) := by
  simp only [sseRun, h]

theorem listWrite_zeros (k : Nat) (bs : List Nat) :
    listWrite (List.replicate k 0) 0 bs = bs ++ List.replicate (k - bs.length) 0 := by
  unfold listWrite
  simp [List.drop_replicate]

/-! ### Concrete streams for the chunking claim (C1) -/

/-- The first logical frame, `data: hello\n\n`. -/
def helloFrame : List Nat := strBytes ("data: hello\n\n")

/-- A partial second frame, `data: x`, cut before its delimiter. -/
def xPartial : List Nat := strBytes ("data: x")

/-- The rest of the stream: delimiter of the second frame and the terminal
sentinel frame. -/
def tailChunk : List Nat := strBytes ("\n\ndata: [DONE]\n\n")

/-- The whole byte stream: frames `hello`, `x`, `[DONE]`. -/
def wholeStream : List Nat := strBytes ("data: hello\n\ndata: x\n\ndata: [DONE]\n\n")

/-- The stream delivered as one single chunk. -/
def singleSrc : List SSERead := [SSERead.chunk wholeStream]

/-- The same bytes delivered in three chunks, split after `data: x`. -/
def chunkedSrc : List SSERead :=
  [SSERead.chunk helloFrame, SSERead.chunk xPartial, SSERead.chunk tailChunk]

/-- Buffer prefix after the single-chunk run consumed the `hello` frame. -/
def afterHello : List Nat := sliceList wholeStream 13 36 ++ wholeStream.drop 23

/-- Buffer prefix after the single-chunk run also consumed the `x` frame. -/
def afterX : List Nat := sliceList afterHello 9 23 ++ afterHello.drop 14

/-- Buffer prefix in the chunked run after `data: x` overwrote the start of
the stale `hello` frame: `data: x` followed by the stale `ello\n\n`. -/
def staleBuf : List Nat := xPartial ++ helloFrame.drop 7

/-- Tail-generic lemmas: the long zero tail of the buffer is kept abstract
(`z`), so no proof step ever evaluates the 4 KiB buffer. -/
theorem scan_tail (p z : List Nat) (hp : ∀ b ∈ p, b ≤ 127) (hz : ∀ b ∈ z, b ≤ 127)
    (hz10 : 10 ∉ z) :
    findNlNl (lossyDecode (p ++ z)) = findNlNl p := by
  rw [lossyDecode_ascii _ (by
    intro b hb
    rcases List.mem_append.mp hb with h | h
    · exact hp b h
    · exact hz b h)]
  exact findNlNl_append_no_nl p z hz10

theorem sliceList_tail (p z : List Nat) (a b : Nat) (hab : a ≤ b) (hb : b ≤ p.length) :
    sliceList (p ++ z) a b = sliceList p a b := by
  unfold sliceList
  rw [List.drop_append_of_le_length (le_trans hab hb),
    List.take_append_of_le_length (by rw [List.length_drop]; omega)]

theorem listWrite_start (z bs : List Nat) : listWrite z 0 bs = bs ++ z.drop bs.length := by
  unfold listWrite
  simp

theorem listWrite_tail (p z : List Nat) (pos : Nat) (bs : List Nat)
    (hpos : pos ≤ p.length) (hin : pos + bs.length ≤ p.length) :
    listWrite (p ++ z) pos bs =
      (p.take pos ++ bs ++ p.drop (pos + bs.length)) ++ z := by
  unfold listWrite
  rw [List.take_append_of_le_length hpos, List.drop_append_of_le_length hin]
  simp [List.append_assoc]

theorem ascii_drop (z : List Nat) (n : Nat) (hz : ∀ b ∈ z, b ≤ 127) :
    ∀ b ∈ z.drop n, b ≤ 127 :=
  fun b hb => hz b (List.mem_of_mem_drop hb)

theorem no_nl_drop (z : List Nat) (n : Nat) (hz : 10 ∉ z) : 10 ∉ z.drop n :=
  fun h => hz (List.mem_of_mem_drop h)

theorem sse_run_single_gen (z : List Nat) (hzl : z.length = 1024 * 4)
    (hza : ∀ b ∈ z, b ≤ 127) (hz10 : 10 ∉ z) :
    sseRun 2 4 { buf := z, filled := 0 } singleSrc =
      ([strBytes ("hello"), strBytes ("x")], RunEnd.finished) := by
  have hws : wholeStream.length = 36 := by decide
  set t : List Nat := z.drop 36 with ht
  have hta : ∀ b ∈ t, b ≤ 127 := ascii_drop z 36 hza
  have ht10 : 10 ∉ t := no_nl_drop z 36 hz10
  have htl : t.length = 4060 := by rw [ht, List.length_drop, hzl]
  -- call 1: reads the whole stream, yields "hello"
  have hread1 : srcRead singleSrc (z.length - 0) = (some wholeStream, []) := by
    apply srcRead_chunk_all
    rw [hws]
    omega
  have hbuf1 : listWrite z 0 wholeStream = wholeStream ++ t := by
    rw [listWrite_start, hws]
  have hfind1 : findNlNl (lossyDecode (wholeStream ++ t)) = some 11 := by
    rw [scan_tail _ _ (by decide) hta ht10]
    decide
  have hdata1 : lossyDecode (sliceList (wholeStream ++ t) 6 11) = strBytes ("hello") := by
    rw [sliceList_tail _ _ _ _ (by norm_num) (by rw [hws]; norm_num)]
    decide
  have hsb1 : sliceList (wholeStream ++ t) 13 36 ++ (wholeStream ++ t).drop 23 =
      afterHello ++ t := by
    rw [sliceList_tail _ _ _ _ (by norm_num) (by rw [hws]),
      List.drop_append_of_le_length (by rw [hws]; norm_num), ← List.append_assoc]
    rfl
  have call1 : sseNext 2 { buf := z, filled := 0 } singleSrc =
      { outcome := NextOutcome.yield (strBytes ("hello")),
        state := { buf := afterHello ++ t, filled := 23 },
        src := [], reads := [z.length - 0] } := by
    rw [sseNext_no_grow_mk 2 z 0 singleSrc (by omega) (by omega)]
    rw [nextLoop_yield 1 { buf := z, filled := 0 } singleSrc [] wholeStream
      (wholeStream ++ t) (strBytes ("hello")) 11 hread1 hbuf1 hfind1 (by norm_num)
      (by rw [List.length_append, hws]; omega) hdata1 (by decide) (by rw [hws]; norm_num)]
    rw [hws]
    norm_num
    rw [hsb1]
  -- call 2: zero-length read at EOF, already-buffered "x" frame is found
  have haH : afterHello.length = 36 := by decide
  have hlenA : (afterHello ++ t).length = 4096 := by
    rw [List.length_append, haH, htl]
  have hread2 : srcRead [] ((afterHello ++ t).length - 23) = (some [], []) := srcRead_eof _
  have hbuf2 : listWrite (afterHello ++ t) 23 [] = afterHello ++ t := listWrite_nil_bs _ _
  have hfind2 : findNlNl (lossyDecode (afterHello ++ t)) = some 7 := by
    rw [scan_tail _ _ (by decide) hta ht10]
    decide
  have hdata2 : lossyDecode (sliceList (afterHello ++ t) 6 7) = strBytes ("x") := by
    rw [sliceList_tail _ _ _ _ (by norm_num) (by rw [haH]; norm_num)]
    decide
  have hsb2 : sliceList (afterHello ++ t) 9 23 ++ (afterHello ++ t).drop 14 = afterX ++ t := by
    rw [sliceList_tail _ _ _ _ (by norm_num) (by rw [haH]; norm_num),
      List.drop_append_of_le_length (by rw [haH]; norm_num), ← List.append_assoc]
    rfl
  have call2 : sseNext 2 { buf := afterHello ++ t, filled := 23 } [] =
      { outcome := NextOutcome.yield (strBytes ("x")),
        state := { buf := afterX ++ t, filled := 14 },
        src := [], reads := [(afterHello ++ t).length - 23] } := by
    rw [sseNext_no_grow_mk 2 (afterHello ++ t) 23 []
      (by rw [hlenA]; norm_num) (by rw [hlenA]; norm_num)]
    rw [nextLoop_yield 1 { buf := afterHello ++ t, filled := 23 } [] [] []
      (afterHello ++ t) (strBytes ("x")) 7 hread2 hbuf2 hfind2 (by norm_num)
      (by rw [hlenA]; norm_num) hdata2 (by decide) (by simp)]
    dsimp only
    norm_num
    rw [hsb2]
  -- call 3: the `[DONE]` frame ends the sequence
  have haX : afterX.length = 36 := by decide
  have hlenX : (afterX ++ t).length = 4096 := by
    rw [List.length_append, haX, htl]
  have hread3 : srcRead [] ((afterX ++ t).length - 14) = (some [], []) := srcRead_eof _
  have hbuf3 : listWrite (afterX ++ t) 14 [] = afterX ++ t := listWrite_nil_bs _ _
  have hfind3 : findNlNl (lossyDecode (afterX ++ t)) = some 12 := by
    rw [scan_tail _ _ (by decide) hta ht10]
    decide
  have hdata3 : lossyDecode (sliceList (afterX ++ t) 6 12) = doneBytes := by
    rw [sliceList_tail _ _ _ _ (by norm_num) (by rw [haX]; norm_num)]
    decide
  have call3 : (sseNext 2 { buf := afterX ++ t, filled := 14 } []).outcome =
      NextOutcome.finished := by
    rw [sseNext_no_grow_mk 2 (afterX ++ t) 14 []
      (by rw [hlenX]; norm_num) (by rw [hlenX]; norm_num)]
    rw [nextLoop_done 1 { buf := afterX ++ t, filled := 14 } [] [] []
      (afterX ++ t) 12 hread3 hbuf3 hfind3 (by norm_num) (by rw [hlenX]; norm_num) hdata3]
  -- chain the three calls
  rw [sseRun_yield_step 2 3 { buf := z, filled := 0 } singleSrc _ _ _ _ call1]
  rw [sseRun_yield_step 2 2 { buf := afterHello ++ t, filled := 23 } [] _ _ _ _ call2]
  rw [sseRun_finished_step 2 1 { buf := afterX ++ t, filled := 14 } [] call3]

theorem sse_run_chunked_gen (z : List Nat) (hzl : z.length = 1024 * 4)
    (hza : ∀ b ∈ z, b ≤ 127) (hz10 : 10 ∉ z) :
    sseRun 2 4 { buf := z, filled := 0 } chunkedSrc =
      ([strBytes ("hello")], RunEnd.panicked) := by
  have hhF : helloFrame.length = 13 := by decide
  set t1 : List Nat := z.drop 13 with ht1
  have ht1a : ∀ b ∈ t1, b ≤ 127 := ascii_drop z 13 hza
  have ht110 : 10 ∉ t1 := no_nl_drop z 13 hz10
  have ht1l : t1.length = 4083 := by rw [ht1, List.length_drop, hzl]
  -- call 1: reads the first chunk, yields "hello"; the consumed frame's
  -- bytes stay in the buffer past the fill mark
  have hread1 : srcRead chunkedSrc (z.length - 0) =
      (some helloFrame, [SSERead.chunk xPartial, SSERead.chunk tailChunk]) := by
    apply srcRead_chunk_all
    rw [hhF]
    omega
  have hbuf1 : listWrite z 0 helloFrame = helloFrame ++ t1 := by
    rw [listWrite_start, hhF]
  have hfind1 : findNlNl (lossyDecode (helloFrame ++ t1)) = some 11 := by
    rw [scan_tail _ _ (by decide) ht1a ht110]
    decide
  have hdata1 : lossyDecode (sliceList (helloFrame ++ t1) 6 11) = strBytes ("hello") := by
    rw [sliceList_tail _ _ _ _ (by norm_num) (by rw [hhF]; norm_num)]
    decide
  have call1 : sseNext 2 { buf := z, filled := 0 } chunkedSrc =
      { outcome := NextOutcome.yield (strBytes ("hello")),
        state := { buf := helloFrame ++ t1, filled := 0 },
        src := [SSERead.chunk xPartial, SSERead.chunk tailChunk],
        reads := [z.length - 0] } := by
    rw [sseNext_no_grow_mk 2 z 0 chunkedSrc (by omega) (by omega)]
    rw [nextLoop_yield 1 { buf := z, filled := 0 } chunkedSrc
      [SSERead.chunk xPartial, SSERead.chunk tailChunk] helloFrame
      (helloFrame ++ t1) (strBytes ("hello")) 11 hread1 hbuf1 hfind1 (by norm_num)
      (by rw [List.length_append, hhF]; omega) hdata1 (by decide) (by rw [hhF])]
    rw [hhF]
    norm_num
    rw [sliceList_tail _ _ _ _ (by norm_num) (by rw [hhF])]
    decide
  -- call 2: `data: x` overwrites the start of the stale frame; the scan finds
  -- the STALE delimiter past the fill mark, extracts the corrupt payload
  -- "xello", and the fill-mark update underflows: a panic
  have hlenF : (helloFrame ++ t1).length = 4096 := by
    rw [List.length_append, hhF, ht1l]
  have hread2 : srcRead [SSERead.chunk xPartial, SSERead.chunk tailChunk]
      ((helloFrame ++ t1).length - 0) = (some xPartial, [SSERead.chunk tailChunk]) := by
    apply srcRead_chunk_all
    rw [hlenF]
    decide
  have hbuf2 : listWrite (helloFrame ++ t1) 0 xPartial = staleBuf ++ t1 := by
    rw [listWrite_tail _ _ _ _ (by norm_num) (by rw [hhF]; decide)]
    rfl
  have hfind2 : findNlNl (lossyDecode (staleBuf ++ t1)) = some 11 := by
    rw [scan_tail _ _ (by decide) ht1a ht110]
    decide
  have hdata2 : lossyDecode (sliceList (staleBuf ++ t1) 6 11) = strBytes ("xello") := by
    rw [sliceList_tail _ _ _ _ (by norm_num) (by decide)]
    decide
  have call2 : (sseNext 2 { buf := helloFrame ++ t1, filled := 0 }
      [SSERead.chunk xPartial, SSERead.chunk tailChunk]).outcome = NextOutcome.panicked := by
    rw [sseNext_no_grow_mk 2 (helloFrame ++ t1) 0 [SSERead.chunk xPartial, SSERead.chunk tailChunk]
      (by rw [hlenF]; norm_num) (by rw [hlenF]; norm_num)]
    rw [nextLoop_panic_underflow 1 { buf := helloFrame ++ t1, filled := 0 }
      [SSERead.chunk xPartial, SSERead.chunk tailChunk] [SSERead.chunk tailChunk] xPartial
      (staleBuf ++ t1) (strBytes ("xello")) 11 hread2 hbuf2 hfind2 (by norm_num)
      (by rw [List.length_append]; omega) hdata2 (by decide)
      (by show (0 : Nat) + xPartial.length < 11 + 2; decide)]
  rw [sseRun_yield_step 2 3 { buf := z, filled := 0 } chunkedSrc _ _ _ _ call1]
  rw [sseRun_panicked_step 2 2 { buf := helloFrame ++ t1, filled := 0 }
    [SSERead.chunk xPartial, SSERead.chunk tailChunk] call2]

/-- C1 (code bug): the Frame Parser is NOT chunking-invariant.  The same
byte stream (frames `hello`, `x`, `[DONE]`) yields the payloads
`["hello", "x"]` and ends normally when delivered as one chunk, but when
chunked as `["data: hello\n\n", "data: x", "\n\ndata: [DONE]\n\n"]` the
run yields `"hello"` and then panics: the scan
`String::from_utf8_lossy(&self.buf)` examines the whole buffer, finds the
stale `\n\n` left past the fill mark by the consumed first frame, extracts
the corrupt payload `"xello"`, and `self.filled -= splitpos + 2`
underflows (in release mode the corrupt `"xello"` is yielded in place of
`"x"`).  The spec requires both runs to yield the same payload
sequence. -/
theorem sse_chunking_not_invariant :
    srcBytes chunkedSrc = srcBytes singleSrc ∧
    sseRun 2 4 sseNew singleSrc = ([strBytes ("hello"), strBytes ("x")], RunEnd.finished) ∧
    sseRun 2 4 sseNew chunkedSrc = ([strBytes ("hello")], RunEnd.panicked) := by
  refine ⟨by decide, ?_, ?_⟩
  · exact sse_run_single_gen (List.replicate (1024 * 4) 0) (List.length_replicate _ _)
      (fun b hb => by rw [List.eq_of_mem_replicate hb]; omega)
      (fun hb => by have h0 := List.eq_of_mem_replicate hb; omega)
  · exact sse_run_chunked_gen (List.replicate (1024 * 4) 0) (List.length_replicate _ _)
      (fun b hb => by rw [List.eq_of_mem_replicate hb]; omega)
      (fun hb => by have h0 := List.eq_of_mem_replicate hb; omega)

/-! ### C6: the scan is not confined to the filled region -/

/-- A parser state whose filled region is `data: x` (7 bytes) and whose
stale region past the fill mark still holds `ello\n\n` from a previously
consumed frame. -/
def stateA : SSEState :=
  { buf := strBytes ("data: x") ++ strBytes ("ello\n\n") ++ List.replicate 187 0, filled := 7 }

/-- A parser state with the same source, fill mark and filled bytes as
`stateA`, but zeros past the fill mark. -/
def stateB : SSEState :=
  { buf := strBytes ("data: x") ++ List.replicate 193 0, filled := 7 }

/-- The common byte source for the two states. -/
def srcC6 : List SSERead := [SSERead.chunk (strBytes ("z")), SSERead.chunk (strBytes ("ab\n\n"))]

set_option maxRecDepth 4000 in
/-- C6 (code bug): two parser states that agree on the fill mark and on
every byte below it, and read the same source, behave differently because
the scan examines the whole buffer: `stateA` (stale `ello\n\n` past the
mark) extracts the corrupt payload `"xzllo"` whose frame end lies past the
fill mark and panics on the fill-mark underflow, while `stateB` (zeros past
the mark) keeps reading and yields the true payload `"xzab"`.  The spec
says the scan covers exactly the filled region, which would make the two
runs identical. -/
theorem sse_scan_reads_stale_bytes :
    stateA.buf.take stateA.filled = stateB.buf.take stateB.filled ∧
    stateA.filled = stateB.filled ∧
    (sseNext 4 stateA srcC6).outcome = NextOutcome.panicked ∧
    (sseNext 4 stateB srcC6).outcome = NextOutcome.yield (strBytes ("xzab")) := by
  refine ⟨by decide, rfl, by decide, by decide⟩

/-! ### C7: the slack check runs once per call, not before every read -/

/-- A full 4 KiB delimiter-free chunk fills the buffer in one read; the loop
then reads again without re-checking slack, into an empty free region. -/
theorem sse_slack_gen (z w : List Nat) (hzl : z.length = 4096) (hwl : w.length = 4096)
    (hza : ∀ b ∈ z, b ≤ 127) (hz10 : 10 ∉ z)
    (hwa : ∀ b ∈ w, b ≤ 127) (hw10 : 10 ∉ w) :
    (sseNext 2 { buf := z, filled := 0 } [SSERead.chunk w]).reads = [4096, 0] := by
  have hfind : findNlNl (lossyDecode (w ++ z.drop w.length)) = none := by
    rw [lossyDecode_ascii _ (by
      intro b hb
      rcases List.mem_append.mp hb with h | h
      · exact hwa b h
      · exact ascii_drop z w.length hza b h)]
    refine findNlNl_none_of_not_mem _ (fun hmem => ?_)
    rcases List.mem_append.mp hmem with h | h
    · exact hw10 h
    · exact no_nl_drop z w.length hz10 h
  have hng : sseNext 2 { buf := z, filled := 0 } [SSERead.chunk w] =
      nextLoop 2 { buf := z, filled := 0 } [SSERead.chunk w] :=
    sseNext_no_grow_mk 2 z 0 [SSERead.chunk w] (by omega) (by omega)
  rw [hng]
  have hread1 : srcRead [SSERead.chunk w] (z.length - 0) = (some w, []) :=
    srcRead_chunk_all w [] _ (by omega)
  have hread2 : srcRead [] ((w ++ z.drop w.length).length - (0 + w.length)) = (some [], []) :=
    srcRead_eof _
  rw [nextLoop_continue 1 { buf := z, filled := 0 } [SSERead.chunk w] [] w
    (w ++ z.drop w.length) hread1 (listWrite_start z w) hfind]
  rw [nextLoop_continue 0 { buf := w ++ z.drop w.length, filled := 0 + w.length } [] [] []
    (w ++ z.drop w.length) hread2 (listWrite_nil_bs _ _) hfind]
  dsimp only [nextLoop]
  rw [hzl, List.length_append, List.length_drop, hzl, hwl]

/-- C7 counterexample: starting from a fresh parser and a source whose first
chunk is 4096 delimiter-free bytes, the reads issued by one call to `next`
have slacks `[4096, 0]`: the second read is issued with zero free space
(an empty free region), refuting the claim that every read sees slack of
at least 128. -/
theorem sse_slack_not_rechecked :
    ¬ (∀ k ∈ (sseNext 2 sseNew [SSERead.chunk (List.replicate 4096 97)]).reads, 128 ≤ k) := by
  intro h
  have heq : (sseNext 2 sseNew [SSERead.chunk (List.replicate 4096 97)]).reads = [4096, 0] :=
    sse_slack_gen (List.replicate (1024 * 4) 0) (List.replicate 4096 97)
      (List.length_replicate _ _) (List.length_replicate _ _)
      (fun b hb => by rw [List.eq_of_mem_replicate hb]; omega)
      (fun hb => by have h0 := List.eq_of_mem_replicate hb; omega)
      (fun b hb => by rw [List.eq_of_mem_replicate hb]; omega)
      (fun hb => by have h0 := List.eq_of_mem_replicate hb; omega)
  have h0 := h 0 (by rw [heq]; simp)
  omega

theorem nextLoop_reads_head (fuel : Nat) (s : SSEState) (src : List SSERead) :
    (nextLoop (fuel + 1) s src).reads.head? = some (s.buf.length - s.filled) := by
  simp only [nextLoop]
  rcases hr : srcRead src (s.buf.length - s.filled) with ⟨o, src1⟩
  cases o with
  | none => rfl
  | some bs =>
    dsimp only
    cases hf : findNlNl (lossyDecode (listWrite s.buf s.filled bs)) with
    | none => rfl
    | some sp =>
      dsimp only
      split
      · rfl
      · split
        · rfl
        · split
          · rfl
          · rfl

/-- C7 amended: before the FIRST read of each call to `next`, the free
space past the filled region is at least 128 bytes (the capacity having
been doubled when the slack was insufficient); the repeated reads within
one call do not re-check the slack. -/
theorem sse_slack_first_read (m : Nat) (s : SSEState) (src : List SSERead)
    (h1 : s.filled ≤ s.buf.length) (h2 : 128 ≤ s.buf.length) :
    ∃ k, (sseNext (m + 1) s src).reads.head? = some k ∧ 128 ≤ k := by
  unfold sseNext
  rw [if_neg (by omega)]
  refine ⟨(growIfNeeded s).buf.length - (growIfNeeded s).filled,
    nextLoop_reads_head m _ src, ?_⟩
  unfold growIfNeeded
  by_cases hc : s.buf.length - s.filled < 128
  · rw [if_pos hc]
    dsimp only
    rw [List.length_append, List.length_replicate]
    omega
  · rw [if_neg hc]
    omega

/-- Witness for the amended C7 at the fresh parser state. -/
theorem sse_slack_first_read_witness :
    ∃ k, (sseNext 1 sseNew []).reads.head? = some k ∧ 128 ≤ k :=
  sse_slack_first_read 0 sseNew [] (Nat.zero_le _)
    (by rw [show sseNew.buf = List.replicate (1024 * 4) 0 from rfl, List.length_replicate]
        norm_num)

theorem sseNew_slack : sseNew.buf.length - sseNew.filled = 4096 := by
  rw [show sseNew.buf = List.replicate (1024 * 4) 0 from rfl, List.length_replicate,
    show sseNew.filled = 0 from rfl]

/-! ### C10: a delimiter before offset 6 panics `next` -/

/-- C10: whenever the first read of a call to `next` leaves the buffer with
its first double-newline delimiter at a position earlier than byte offset
6, the payload slice `&self.buf[6..splitpos]` is out of range and `next`
panics instead of yielding an item or ending the sequence. -/
theorem sse_short_frame_panics (m : Nat) (s : SSEState) (src src1 : List SSERead)
    (bs : List Nat) (p : Nat)
    (hok : s.filled ≤ s.buf.length)
    (hread : srcRead src ((growIfNeeded s).buf.length - (growIfNeeded s).filled) =
      (some bs, src1))
    (hfind : findNlNl (lossyDecode
      (listWrite (growIfNeeded s).buf (growIfNeeded s).filled bs)) = some p)
    (hp : p < 6) :
    (sseNext (m + 1) s src).outcome = NextOutcome.panicked := by
  unfold sseNext
  rw [if_neg (by omega)]
  rw [nextLoop_panic_short m (growIfNeeded s) src src1 bs _ p hread rfl hfind hp]

/-- Witness for C10: a stream that begins with a blank line (`\n\n` before
any `data: ` prefix) panics the parser on its first call. -/
theorem sse_short_frame_panics_witness :
    (sseNext 1 sseNew [SSERead.chunk [10, 10]]).outcome = NextOutcome.panicked := by
  have hg : growIfNeeded sseNew = sseNew := by
    unfold growIfNeeded
    rw [if_neg (by rw [sseNew_slack]; norm_num)]
  apply sse_short_frame_panics 0 sseNew [SSERead.chunk [10, 10]] [] [10, 10] 0
      (Nat.zero_le _)
  · rw [hg]
    apply srcRead_chunk_all
    show (2 : Nat) ≤ sseNew.buf.length - sseNew.filled
    rw [sseNew_slack]
    norm_num
  · rw [hg]
    show findNlNl (lossyDecode (listWrite sseNew.buf sseNew.filled [10, 10])) = some 0
    rw [show listWrite sseNew.buf sseNew.filled [10, 10] =
        [10, 10] ++ sseNew.buf.drop 2 from listWrite_start _ _]
    rw [scan_tail [10, 10] (sseNew.buf.drop 2) (by decide)
      (ascii_drop _ _ (fun b hb => by rw [List.eq_of_mem_replicate hb]; omega))
      (no_nl_drop _ _ (fun hb => by have h0 := List.eq_of_mem_replicate hb; omega))]
    decide
  · norm_num

/-! ## Completion Client (src/chatgpt.rs)

`ask`/`ask_stream` push the user question, build the request from the
synthesized system message plus the conversation, call the transport, and
push the response's first choice message
(`resp.choices[0].message.as_ref().unwrap()`) — which PANICS when the
first choice or its message is absent.  The transport outcome (and, for
streaming, the decoded fragment sequence) is an input of the model. -/

/-- `pub const CHATGPT_ENDPOINT: &str = ...` -/
def CHATGPT_ENDPOINT : String := "https://api.openai.com/v1/chat/completions"

/-- `struct Assistant { system_msg: String, conversation: Vec<Message> }` -/
structure AssistantState where
  system_msg : String
  conversation : List Message
deriving DecidableEq, Repr

/-- `Assistant::default()` -/
def defaultAssistant : AssistantState :=
  { system_msg := "You are a helpful AI assistant.", conversation := [] }

/-- `struct ChatGPT { endpoint: String, token: String, assistant: Assistant }` -/
structure ChatGPTState where
  endpoint : String
  token : String
  assistant : AssistantState
deriving DecidableEq, Repr

/-- `ChatGPT::new` -/
def ChatGPT.new (token : String) : ChatGPTState :=
  { endpoint := CHATGPT_ENDPOINT, token := token, assistant := defaultAssistant }

/-- `Assistant::generate_request`: the synthesized system message followed
by the conversation snapshot. -/
def generate_request (a : AssistantState) : CompletionRequest :=
  { emptyRequest with
    model := DEFAULT_MODEL,
    messages := Message.system a.system_msg :: a.conversation }

/-- The request `ask` hands to the transport for question `q`: the user
message is pushed first, then the request is generated. -/
def askRequest (g : ChatGPTState) (q : String) : CompletionRequest :=
  generate_request { g.assistant with conversation := g.assistant.conversation ++ [Message.user q] }

/-- The request `ask_stream` hands to the transport: as `askRequest`, with
the streaming flag set. -/
def askStreamRequest (g : ChatGPTState) (q : String) : CompletionRequest :=
  { askRequest g q with stream := some true }

/-- The transport outcome seen by `ask`: a decoded response, or a
transport/decode failure (`send_request`/`into_string`/`serde_json` error). -/
inductive TransportResult where
  | ok (resp : CompletionResponse)
  | err
deriving Repr

/-- The transport outcome seen by `ask_stream`: the decoded fragment
sequence of the event stream, or a transport/decode failure (a malformed
frame aborts the call the same way a transport error does). -/
inductive StreamTransport where
  | err
  | frames (fs : List CompletionResponse)
deriving Repr

/-- How a call to `ask`/`ask_stream` ends: normal return with the response
and the new client state, an error return (`Err`), or a panic. -/
inductive AskOutcome where
  | ok (resp : CompletionResponse) (g : ChatGPTState)
  | fail (g : ChatGPTState)
  | panicked
deriving Repr

/-- `ChatGPT::ask` (chatgpt.rs lines 105-116).  The user message is pushed
before the transport call, so it survives a failure; on success
`resp.choices[0].message.as_ref().unwrap()` is pushed — a panic when the
choices are empty or the first choice has no message. -/
def askOp (g : ChatGPTState) (q : String) (tr : TransportResult) : AskOutcome :=
  let g1 := { g with assistant := { g.assistant with
    conversation := g.assistant.conversation ++ [Message.user q] } }
  match tr with
  | TransportResult.err => AskOutcome.fail g1
  | TransportResult.ok resp =>
    match resp.choices.head? with
    | none => AskOutcome.panicked
    | some c =>
      match c.message with
      | none => AskOutcome.panicked
      | some m =>
        AskOutcome.ok resp { g1 with assistant := { g1.assistant with
          conversation := g1.assistant.conversation ++ [m] } }

/-- `ChatGPT::ask_stream` (chatgpt.rs lines 118-134): `request_stream`
decodes each event, folds it into an accumulator with `merge_delta`
(whose `unwrap` can panic) and finally the accumulated response's first
choice message is unwrapped exactly as in `ask`. -/
def askStreamOp (g : ChatGPTState) (q : String) (tr : StreamTransport) : AskOutcome :=
  let g1 := { g with assistant := { g.assistant with
    conversation := g.assistant.conversation ++ [Message.user q] } }
  match tr with
  | StreamTransport.err => AskOutcome.fail g1
  | StreamTransport.frames fs =>
    match mergeAll emptyResponse fs with
    | none => AskOutcome.panicked
    | some resp =>
      match resp.choices.head? with
      | none => AskOutcome.panicked
      | some c =>
        match c.message with
        | none => AskOutcome.panicked
        | some m =>
          AskOutcome.ok resp { g1 with assistant := { g1.assistant with
            conversation := g1.assistant.conversation ++ [m] } }

/-- `ChatGPT::clear_conversation` -/
def clearConversation (g : ChatGPTState) : ChatGPTState :=
  { g with assistant := { g.assistant with conversation := [] } }

/-- Client states reachable from `ChatGPT::new` by any sequence of `ask`,
`ask_stream` and `clear_conversation` calls, with arbitrary transport
outcomes (a panicking call yields no successor state). -/
inductive Reachable : ChatGPTState → Prop where
  | new (token : String) : Reachable (ChatGPT.new token)
  | askOk : Reachable g → askOp g q tr = AskOutcome.ok r g1 → Reachable g1
  | askFail : Reachable g → askOp g q tr = AskOutcome.fail g1 → Reachable g1
  | streamOk : Reachable g → askStreamOp g q tr = AskOutcome.ok r g1 → Reachable g1
  | streamFail : Reachable g → askStreamOp g q tr = AskOutcome.fail g1 → Reachable g1
  | clear : Reachable g → Reachable (clearConversation g)

/-! ### C2: a response with no first-choice message panics `ask` -/

/-- C2 counterexample: when the transport succeeds but the decoded response
has no first Choice message (`choices` empty), `ask` does NOT return a
failure to its caller: `resp.choices[0]` panics (modelled by the
`panicked` outcome, distinct from the `fail` error return). -/
theorem ask_missing_message_not_error_return :
    askOp (ChatGPT.new ("")) ("hi") (TransportResult.ok emptyResponse) = AskOutcome.panicked ∧
    ¬ ∃ g, askOp (ChatGPT.new ("")) ("hi") (TransportResult.ok emptyResponse) =
      AskOutcome.fail g := by
  refine ⟨rfl, ?_⟩
  rintro ⟨g, h⟩
  rw [show askOp (ChatGPT.new ("")) ("hi") (TransportResult.ok emptyResponse) =
    AskOutcome.panicked from rfl] at h
  exact AskOutcome.noConfusion h

/-- C2 amended: if the transport call succeeds and the body decodes, but
the response has no first Choice message, `ask` panics — it aborts instead
of completing normally, rather than returning an error value; the same
holds for `ask_stream` applied to its accumulated final response. -/
theorem ask_missing_message_panics (g : ChatGPTState) (q : String) (resp : CompletionResponse)
    (h : primaryMessage resp = none) :
    askOp g q (TransportResult.ok resp) = AskOutcome.panicked ∧
    (∀ fs, mergeAll emptyResponse fs = some resp →
      askStreamOp g q (StreamTransport.frames fs) = AskOutcome.panicked) := by
  have hc2 : ∀ c, resp.choices.head? = some c → c.message = none := by
    intro c hh
    unfold primaryMessage at h
    rw [hh] at h
    simpa using h
  constructor
  · cases hh : resp.choices.head? with
    | none => simp [askOp, hh]
    | some c => simp [askOp, hh, hc2 c hh]
  · intro fs hm
    cases hh : resp.choices.head? with
    | none => simp [askStreamOp, hm, hh]
    | some c => simp [askStreamOp, hm, hh, hc2 c hh]

/-- Witness for the amended C2: the default (choice-less) response. -/
theorem ask_missing_message_panics_witness :
    primaryMessage emptyResponse = none ∧
    askOp (ChatGPT.new ("")) ("w") (TransportResult.ok emptyResponse) = AskOutcome.panicked ∧
    askStreamOp (ChatGPT.new ("")) ("w") (StreamTransport.frames []) = AskOutcome.panicked :=
  ⟨rfl, (ask_missing_message_panics (ChatGPT.new ("")) ("w") emptyResponse rfl).1,
    (ask_missing_message_panics (ChatGPT.new ("")) ("w") emptyResponse rfl).2 [] rfl⟩

/-! ### C8: the system message is synthesized per request, but an
adversarial transport response can put an equal message into the
Conversation -/

/-- A transport response whose first-choice message is exactly the
synthesized system message. -/
def evilResp : CompletionResponse :=
  { emptyResponse with choices :=
      [{ index := 0, message := some (Message.system ("You are a helpful AI assistant.")),
         delta := none, finish_reason := none }] }

/-- The assistant state after one `ask` against `evilResp`. -/
def evilAssistant : AssistantState :=
  { system_msg := "You are a helpful AI assistant.",
    conversation := [Message.user ("hi"),
      Message.system ("You are a helpful AI assistant.")] }

/-- The client state after one `ask` against `evilResp`. -/
def evilState : ChatGPTState :=
  { endpoint := CHATGPT_ENDPOINT, token := "", assistant := evilAssistant }

/-- C8 counterexample: a state reachable from `new` by one `ask` whose
transport response's first-choice message equals the synthesized system
message; `ask` appends it, so the stored Conversation contains the
synthesized system message, refuting the unconditional "never contains"
claim. -/
theorem conversation_can_contain_system_message :
    Reachable evilState ∧
    Message.system evilState.assistant.system_msg ∈ evilState.assistant.conversation := by
  constructor
  · exact Reachable.askOk (Reachable.new ("")) (rfl :
      askOp (ChatGPT.new ("")) ("hi") (TransportResult.ok evilResp) =
        AskOutcome.ok evilResp evilState)
  · decide

/-- Client states reachable from `new` when no transport response hands
back a first-choice message equal to the synthesized system message. -/
inductive ReachableB : ChatGPTState → Prop where
  | new (token : String) : ReachableB (ChatGPT.new token)
  | askOk : ReachableB g → askOp g q (TransportResult.ok resp) = AskOutcome.ok r g1 →
      primaryMessage resp ≠ some (Message.system g.assistant.system_msg) → ReachableB g1
  | askFail : ReachableB g → askOp g q tr = AskOutcome.fail g1 → ReachableB g1
  | streamOk : ReachableB g →
      askStreamOp g q (StreamTransport.frames fs) = AskOutcome.ok r g1 →
      (∀ resp, mergeAll emptyResponse fs = some resp →
        primaryMessage resp ≠ some (Message.system g.assistant.system_msg)) → ReachableB g1
  | streamFail : ReachableB g → askStreamOp g q tr = AskOutcome.fail g1 → ReachableB g1
  | clear : ReachableB g → ReachableB (clearConversation g)

/-- C8 amended: the request handed to the transport by `ask` and
`ask_stream` always has the synthesized system message as its first
element, and — provided the transport never returns that synthesized
message verbatim as a first-choice message — the stored Conversation never
contains it (the operations only append the user's question and the
response's first-choice message, and `clear_conversation` empties the
Conversation). -/
theorem client_system_message_amended (g : ChatGPTState) (hg : ReachableB g) :
    (∀ q, (askRequest g q).messages.head? = some (Message.system g.assistant.system_msg) ∧
      (askStreamRequest g q).messages.head? = some (Message.system g.assistant.system_msg)) ∧
    Message.system g.assistant.system_msg ∉ g.assistant.conversation := by
  refine ⟨fun q => ⟨rfl, rfl⟩, ?_⟩
  induction hg with
  | new token => simp [ChatGPT.new, defaultAssistant]
  | askOk hR heq hne ih =>
    rename_i g' q tr r g1
    cases hh : tr.choices.head? with
    | none => simp [askOp, hh] at heq
    | some c =>
      cases hm2 : c.message with
      | none => simp [askOp, hh, hm2] at heq
      | some m =>
        simp only [askOp, hh, hm2, AskOutcome.ok.injEq] at heq
        obtain ⟨h1, hg1⟩ := heq
        subst hg1
        have hm : m ≠ Message.system g'.assistant.system_msg := by
          intro hcontra
          exact hne (by simp [primaryMessage, hh, hm2, hcontra])
        simp only [List.mem_append, List.mem_singleton]
        rintro ((hin | hq) | hmm)
        · exact ih hin
        · exact absurd (congrArg Message.role hq) (by simp [Message.system, Message.user])
        · exact hm hmm.symm
  | askFail hR heq ih =>
    rename_i g' q tr g1
    cases tr with
    | err =>
      simp only [askOp, AskOutcome.fail.injEq] at heq
      subst heq
      simp only [List.mem_append, List.mem_singleton]
      rintro (hin | hq)
      · exact ih hin
      · exact absurd (congrArg Message.role hq) (by simp [Message.system, Message.user])
    | ok resp =>
      cases hh : resp.choices.head? with
      | none => simp [askOp, hh] at heq
      | some c =>
        cases hm2 : c.message with
        | none => simp [askOp, hh, hm2] at heq
        | some m => simp [askOp, hh, hm2] at heq
  | streamOk hR heq hne ih =>
    rename_i g' q fs r g1
    cases hmm : mergeAll emptyResponse fs with
    | none => simp [askStreamOp, hmm] at heq
    | some resp =>
      cases hh : resp.choices.head? with
      | none => simp [askStreamOp, hmm, hh] at heq
      | some c =>
        cases hm2 : c.message with
        | none => simp [askStreamOp, hmm, hh, hm2] at heq
        | some m =>
          simp only [askStreamOp, hmm, hh, hm2, AskOutcome.ok.injEq] at heq
          obtain ⟨h1, hg1⟩ := heq
          subst hg1
          have hm : m ≠ Message.system g'.assistant.system_msg := by
            intro hcontra
            exact hne resp hmm (by simp [primaryMessage, hh, hm2, hcontra])
          simp only [List.mem_append, List.mem_singleton]
          rintro ((hin | hq) | hmm2)
          · exact ih hin
          · exact absurd (congrArg Message.role hq) (by simp [Message.system, Message.user])
          · exact hm hmm2.symm
  | streamFail hR heq ih =>
    rename_i g' q tr g1
    cases tr with
    | err =>
      simp only [askStreamOp, AskOutcome.fail.injEq] at heq
      subst heq
      simp only [List.mem_append, List.mem_singleton]
      rintro (hin | hq)
      · exact ih hin
      · exact absurd (congrArg Message.role hq) (by simp [Message.system, Message.user])
    | frames fs =>
      cases hmm : mergeAll emptyResponse fs with
      | none => simp [askStreamOp, hmm] at heq
      | some resp =>
        cases hh : resp.choices.head? with
        | none => simp [askStreamOp, hmm, hh] at heq
        | some c =>
          cases hm2 : c.message with
          | none => simp [askStreamOp, hmm, hh, hm2] at heq
          | some m => simp [askStreamOp, hmm, hh, hm2] at heq
  | clear hR ih =>
    simp [clearConversation]

/-- Witness for the amended C8 at the freshly constructed client. -/
theorem client_system_message_amended_witness :
    (∀ q, (askRequest (ChatGPT.new ("")) q).messages.head? =
        some (Message.system (ChatGPT.new ("")).assistant.system_msg) ∧
      (askStreamRequest (ChatGPT.new ("")) q).messages.head? =
        some (Message.system (ChatGPT.new ("")).assistant.system_msg)) ∧
    Message.system (ChatGPT.new ("")).assistant.system_msg ∉
      (ChatGPT.new ("")).assistant.conversation :=
  client_system_message_amended (ChatGPT.new ("")) (ReachableB.new (""))
